import Mathlib

/-!
Verification development for the `web_monitoring.differs` module: a shallow
embedding of its data model and operations, followed by theorems settling the
specification claims.

Modelling conventions:
* An HTML document tree (as produced by the external parser, which is an
  out-of-scope collaborator) is a forest of nodes: elements with a tag, an
  attribute list and children; text nodes; comment nodes.  `Soup` is such a
  forest (the top-level children of a parsed document object).
* External collaborators (the character diff engines `diff` / `diff_bytes`,
  the structural diff `htmldiff`, the serializer `prettify` and the reparse
  step) are universally quantified function parameters of the embedded
  operations.
* Python exceptions are modelled with `Except PyError`; machine-level byte
  strings are `List Nat`.
-/

deriving instance DecidableEq for Except

mutual
inductive Node where
  | text (s : String)
  | comment (s : String)
  | elem (tag : String) (attrs : List (String × String)) (children : NodeList)
deriving DecidableEq
inductive NodeList where
  | nil
  | cons (head : Node) (tail : NodeList)
deriving DecidableEq
end

abbrev Soup := NodeList

/-- Convert an ordinary list of nodes into a `NodeList` (notation helper for
examples; the embedding itself works on `NodeList`). -/
def NodeList.ofList : List Node → NodeList
  | [] => .nil
  | n :: rest => .cons n (NodeList.ofList rest)

def NodeList.append : NodeList → NodeList → NodeList
  | .nil, l => l
  | .cons n rest, l => .cons n (NodeList.append rest l)

def NodeList.isEmpty : NodeList → Bool
  | .nil => true
  | .cons _ _ => false

/-- Tag name of a node: `element.name` for tags; text and comment nodes
(`NavigableString`s) have no usable `name` (the code always guards with
`hasattr(node, 'name')` or compares against a tag literal). -/
def nodeName : Node → Option String
  | .text _ => none
  | .comment _ => none
  | .elem t _ _ => some t

/-- Python truthiness of a Beautiful Soup node: a `Tag` defines `__len__` as
the number of its children, so an element is falsy iff it has no children; a
`NavigableString` is a `str`, falsy iff empty. -/
def nodeTruthy : Node → Bool
  | .text s => !(s == "")
  | .comment s => !(s == "")
  | .elem _ _ cs => !cs.isEmpty

/-- Python truthiness of an optional node (`None` is falsy). -/
def optTruthy : Option Node → Bool
  | none => false
  | some n => nodeTruthy n

def attrsRender : List (String × String) → String
  | [] => ""
  | (k, v) :: rest => " " ++ k ++ "=\x22" ++ v ++ "\x22" ++ attrsRender rest

mutual
/-- Serialization of a node as it appears inside markup output (the model of
Beautiful Soup `decode`; escaping details of the real serializer are not
modelled). -/
def nodeRender : Node → String
  | .text s => s
  | .comment s => "<!--" ++ s ++ "-->"
  | .elem t a cs => "<" ++ t ++ attrsRender a ++ ">" ++ renderChildren cs ++ "</" ++ t ++ ">"
def renderChildren : NodeList → String
  | .nil => ""
  | .cons n rest => nodeRender n ++ renderChildren rest
end

/-- Python `str(node)`: for a `Tag` this is its serialized markup; for a
`NavigableString` (including comments and doctype strings) it is the bare
string content. -/
def nodeStr : Node → String
  | .text s => s
  | .comment s => s
  | .elem t a cs => nodeRender (.elem t a cs)

/-- Python exceptions that the embedded operations can raise. -/
inductive PyError where
  | typeError (msg : String)
  | keyError (key : String)
  | attributeError (msg : String)
deriving DecidableEq

/-- Model of `compare_length`: difference in response body lengths (`len(b) -
len(a)`); the bodies themselves are never inspected. -/
def compare_length (a_body b_body : List Nat) : Int :=
  (b_body.length : Int) - (a_body.length : Int)

/-- Model of `identical_bytes`: exact equality of the response bodies. -/
def identical_bytes (a_body b_body : List Nat) : Bool :=
  a_body == b_body

/-- Dictionary mapping diff-match-patch tags to the codes the module uses. -/
def diff_codes : List (Char × Int) := [('=', 0), ('-', -1), ('+', 1)]

/-- A value that is either a Python `str` or a Python `bytes`. -/
inductive TextVal where
  | str (v : String)
  | bytes (v : List Nat)
deriving DecidableEq

/-- Type of the external `diff` engine (str inputs): both sequences, the time
limit; `checklines=False`, `cleanup_semantic=True`, `counts_only=False` are
fixed by the call site and folded into the engine parameter. -/
abbrev StrDiffEngine := String → String → Nat → List (Char × String)

/-- Type of the external `diff_bytes` engine (bytes inputs). -/
abbrev BytesDiffEngine := List Nat → List Nat → Nat → List (Char × List Nat)

/-- The list comprehension `[(diff_codes[change[0]], change[1]) for change in
changes]`: translate each engine tag through `diff_codes`, raising `KeyError`
at the first unknown tag. -/
def translateChanges {α : Type} (inj : α → TextVal) :
    List (Char × α) → Except PyError (List (Int × TextVal))
  | [] => .ok []
  | (c, seg) :: rest =>
    match diff_codes.lookup c with
    | none => .error (.keyError (String.mk [c]))
    | some k =>
      match translateChanges inj rest with
      | .error e => .error e
      | .ok r => .ok ((k, inj seg) :: r)

/-- Model of `compute_dmp_diff`: dispatch on the runtime types of the two
inputs, raising `TypeError` on a mixed str/bytes pair, then translate the
engine tags through `diff_codes`. -/
def compute_dmp_diff (dstr : StrDiffEngine) (dbytes : BytesDiffEngine)
    (a_text b_text : TextVal) (timelimit : Nat) :
    Except PyError (List (Int × TextVal)) :=
  match a_text, b_text with
  | .str a, .str b => translateChanges .str (dstr a b timelimit)
  | .bytes a, .bytes b => translateChanges .bytes (dbytes a b timelimit)
  | _, _ =>
    .error (.typeError "Both the texts should be either of type \x27str\x27 or \x27bytes\x27.")

/-- Model of `html_source_diff`: diff the full source with a 2 second limit. -/
def html_source_diff (dstr : StrDiffEngine) (dbytes : BytesDiffEngine)
    (a_text b_text : TextVal) : Except PyError (List (Int × TextVal)) :=
  compute_dmp_diff dstr dbytes a_text b_text 2

/-- Whether an `Except` result is a raised `TypeError`. -/
def isTypeError {α : Type} : Except PyError α → Bool
  | .error (.typeError _) => true
  | _ => false

mutual
/-- Drop every comment node, at all depths (the model of extracting all
`Comment` strings from a soup). -/
def cleanNode : Node → Node
  | .text s => .text s
  | .comment s => .comment s
  | .elem t a cs => .elem t a (cleanList cs)
def cleanList : NodeList → NodeList
  | .nil => .nil
  | .cons n rest =>
    match n with
    | .comment _ => cleanList rest
    | _ => .cons (cleanNode n) (cleanList rest)
end

mutual
/-- All string nodes of a forest in document order, each paired with the name
of its parent (the model of `find_all(text=True)`, where each returned
`NavigableString` knows its parent). -/
def textsNode (parent : String) : Node → List (String × String)
  | .text s => [(parent, s)]
  | .comment s => [(parent, s)]
  | .elem t _ cs => textsList t cs
def textsList (parent : String) : NodeList → List (String × String)
  | .nil => []
  | .cons n rest => textsNode parent n ++ textsList parent rest
end

/-- Model of `_get_text`: parse (already done), extract comments, then collect
every remaining string node with its parent name.  Strings directly under the
soup object have parent name `[document]`. -/
def get_text (soup : Soup) : List (String × String) :=
  textsList "[document]" (cleanList soup)

def INVISIBLE_TAGS : List String := ["style", "script", "[document]", "head", "title"]

/-- Python `\s` on ASCII text (the inputs in this development are ASCII; the
extra Unicode whitespace classes of Python are not modelled). -/
def pyIsSpace (c : Char) : Bool :=
  c = ' ' || c = '\t' || c = '\n' || c = '\r' || c = '\x0b' || c = '\x0c'

/-- Model of `str(element.encode('utf-8'))`: the Python `repr` of a bytes
object, which always starts with the characters `b` and a quote (the escaping
that `repr` applies inside the quotes is irrelevant here and not modelled). -/
def pyBytesRepr (s : String) : List Char :=
  'b' :: '\x27' :: (s.data ++ ['\x27'])

/-- Whether `p` occurs as a contiguous sublist of the second argument. -/
def occursWithin (p : List Char) : List Char → Bool
  | [] => List.isPrefixOf p []
  | c :: rest => List.isPrefixOf p (c :: rest) || occursWithin p rest

/-- Model of `re.match('<!--.*-->', s)`: the string must begin with `<!--`,
and `-->` must occur with only non-newline characters before it (`.` does not
match a newline; the match is anchored at the start). -/
def matchesCommentRe : List Char → Bool
  | '<' :: '!' :: '-' :: '-' :: rest =>
    occursWithin ['-', '-', '>'] (rest.takeWhile (fun c => !(c = '\n')))
  | _ => false

/-- Model of `_is_visible` over a (parent name, content) pair: invisible when
the parent is in `INVISIBLE_TAGS`, or when the bytes-repr of the content
matches the comment pattern (which can never happen, since a bytes-repr
starts with `b`). -/
def is_visible (el : String × String) : Bool :=
  if INVISIBLE_TAGS.contains el.1 then false
  else if matchesCommentRe (pyBytesRepr el.2) then false
  else true

/-- Emit an accumulated (reversed) whitespace run: replaced by exactly two
newlines when it contains at least `minNl` newlines, kept verbatim otherwise. -/
def emitRun (minNl : Nat) (run : List Char) : List Char :=
  if minNl ≤ run.count '\n' then ['\n', '\n'] else run.reverse

/-- Scan characters, accumulating the current maximal whitespace run
(reversed) in `run` and emitting it via `emitRun` at each boundary. -/
def collapseRunsAux (minNl : Nat) (run : List Char) : List Char → List Char
  | [] => emitRun minNl run
  | c :: rest =>
    if pyIsSpace c then collapseRunsAux minNl (c :: run) rest
    else emitRun minNl run ++ (c :: collapseRunsAux minNl [] rest)

/-- Replace every maximal whitespace run containing at least `minNl` newlines
by exactly two newlines.  With `minNl = 2` this is the model of
`REPEATED_BLANK_LINES.sub('\n\n', text)` for the pattern
`([^\S\n]*\n\s*){2,}`: a match of that pattern is exactly a maximal
whitespace run containing two or more newlines (each `{2,}` iteration
consumes one newline, possibly more via its trailing `\s*`; the leftmost
match starts at the beginning of the run because the prefix of a whitespace
run before its first newline contains no newline; greediness extends the
match to the end of the run; no match can cross a non-whitespace character). -/
def collapseRuns (minNl : Nat) (l : List Char) : List Char :=
  collapseRunsAux minNl [] l

/-- Python `str.strip()` on ASCII text: drop leading and trailing whitespace. -/
def pyStrip (l : List Char) : List Char :=
  ((l.dropWhile pyIsSpace).reverse.dropWhile pyIsSpace).reverse

/-- Model of `_get_visible_text`: join the visible string nodes with single
spaces, collapse repeated blank lines, strip. -/
def get_visible_text (soup : Soup) : String :=
  let joined := " ".intercalate (((get_text soup).filter is_visible).map (fun el => el.2))
  (pyStrip (collapseRuns 2 joined.data)).asString

/-- Model of `html_text_diff`: extract the visible text of both documents and
run the str diff engine with a 2 second limit. -/
def html_text_diff (dstr : StrDiffEngine) (dbytes : BytesDiffEngine)
    (soupA soupB : Soup) : Except PyError (List (Int × TextVal)) :=
  compute_dmp_diff dstr dbytes (.str (get_visible_text soupA))
    (.str (get_visible_text soupB)) 2

/-- The tags matched by `soup.find_all(['script', 'style'])`. -/
def isUndiffable (t : String) : Bool := t == "script" || t == "style"

/-- Placeholder ID `f'{prefix}-{index}'`. -/
def replacementId (pre : String) (n : Nat) : String := pre ++ "-" ++ Nat.repr n

/-- The replacement element built for a shielded node: same tag, a single
`wm-diff-replacement` attribute, and a single indivisible text token. -/
def placeholderFor (t id : String) : Node :=
  .elem t [("wm-diff-replacement", id)] (.cons (.text ("$[" ++ id ++ "]$")) .nil)

mutual
/-- Model of the `_remove_undiffable_content` loop: `find_all` enumerates the
matching elements in document order (including matches nested inside other
matches), and each is replaced in turn.  Replacing an outer match detaches
it, so later replacements of matches nested inside it mutate the element
stored in the replacement table, not the soup: the stored original of an
outer match therefore contains placeholders for its inner matches, and only
the outermost placeholder appears in the returned soup.  The counter is
threaded in that same enumeration order. -/
def shieldNode (pre : String) : Node → Nat → Node × List (String × Node) × Nat
  | .text s, n => (.text s, [], n)
  | .comment s, n => (.comment s, [], n)
  | .elem t a cs, n =>
    if isUndiffable t then
      let id := replacementId pre n
      let inner := shieldList pre cs (n + 1)
      (placeholderFor t id, (id, .elem t a inner.1) :: inner.2.1, inner.2.2)
    else
      let inner := shieldList pre cs n
      (.elem t a inner.1, inner.2.1, inner.2.2)
def shieldList (pre : String) : NodeList → Nat → NodeList × List (String × Node) × Nat
  | .nil, n => (.nil, [], n)
  | .cons h rest, n =>
    let hr := shieldNode pre h n
    let rr := shieldList pre rest hr.2.2
    (.cons hr.1 rr.1, hr.2.1 ++ rr.2.1, rr.2.2)
end

/-- Model of `_remove_undiffable_content(soup, prefix)`: shield every script
and style element, returning the cleaned soup and the replacement table. -/
def remove_undiffable_content (soup : Soup) (pre : String) :
    Soup × List (String × Node) :=
  let r := shieldList pre soup 0
  (r.1, r.2.1)

mutual
/-- Model of the `_add_undiffable_content` loop over
`soup.select('[wm-diff-replacement]')` (document order): for each element
carrying the attribute, `replacements[id]` raises `KeyError` when the ID is
absent; when present, the element is replaced only if the stored node is
truthy (a tag with no children is falsy and is left in place).  A replaced
node's content is not rescanned (`select` ran before the loop). -/
def unshieldNode (tab : List (String × Node)) : Node → Except PyError Node
  | .text s => .ok (.text s)
  | .comment s => .ok (.comment s)
  | .elem t a cs =>
    match a.lookup "wm-diff-replacement" with
    | some id =>
      match tab.lookup id with
      | none => .error (.keyError id)
      | some r =>
        if nodeTruthy r then .ok r
        else
          match unshieldList tab cs with
          | .error e => .error e
          | .ok cs2 => .ok (.elem t a cs2)
    | none =>
      match unshieldList tab cs with
      | .error e => .error e
      | .ok cs2 => .ok (.elem t a cs2)
def unshieldList (tab : List (String × Node)) : NodeList → Except PyError NodeList
  | .nil => .ok .nil
  | .cons h rest =>
    match unshieldNode tab h with
    | .error e => .error e
    | .ok h2 =>
      match unshieldList tab rest with
      | .error e => .error e
      | .ok rest2 => .ok (.cons h2 rest2)
end

/-- Model of `_add_undiffable_content(soup, replacements)`. -/
def add_undiffable_content (soup : Soup) (tab : List (String × Node)) :
    Except PyError Soup :=
  unshieldList tab soup

mutual
/-- Model of Beautiful Soup `find(name)` (and attribute access like
`soup.html` / `soup.head`): the first element with the given tag name in
pre-order document order, or `None`. -/
def findElemNode (name : String) : Node → Option Node
  | .text _ => none
  | .comment _ => none
  | .elem t a cs =>
    if t == name then some (.elem t a cs) else findElemList name cs
def findElemList (name : String) : NodeList → Option Node
  | .nil => none
  | .cons h rest =>
    match findElemNode name h with
    | some r => some r
    | none => findElemList name rest
end

/-- The result shape of `_find_meaningful_nodes`. -/
structure Regions where
  pre_head : String
  head : Option Node
  pre_body : String
  body : Option Node
  post_body : String
deriving DecidableEq

/-- Accumulator state of the `_find_meaningful_nodes` loop (the three text
regions are accumulated as lists and joined with newlines at the end). -/
structure FmnState where
  pre_head : List String
  head : Option Node
  pre_body : List String
  body : Option Node
  post_body : List String
deriving DecidableEq

/-- One iteration of the `_find_meaningful_nodes` loop.  The conditions `if
not head and not body:` and `elif not body:` use Python truthiness of the
stored nodes (`None` and childless tags are both falsy). -/
def fmnStep (st : FmnState) (node : Node) : FmnState :=
  if !optTruthy st.head && !optTruthy st.body then
    if nodeName node == some "head" then { st with head := some node }
    else if nodeName node == some "body" then { st with body := some node }
    else { st with pre_head := st.pre_head ++ [nodeStr node] }
  else if !optTruthy st.body then
    if nodeName node == some "body" then { st with body := some node }
    else { st with pre_body := st.pre_body ++ [nodeStr node] }
  else { st with post_body := st.post_body ++ [nodeStr node] }

def fmnFold (st : FmnState) : NodeList → FmnState
  | .nil => st
  | .cons n rest => fmnFold (fmnStep st n) rest

def fmnStateToRegions (st : FmnState) : Regions :=
  ⟨"\n".intercalate st.pre_head, st.head, "\n".intercalate st.pre_body,
   st.body, "\n".intercalate st.post_body⟩

/-- Model of `_find_meaningful_nodes(soup)`: iterate over `soup.html.children`
(raising `AttributeError` when the soup has no `html` element, since
`soup.html` is then `None`), classifying each child. -/
def find_meaningful_nodes (soup : Soup) : Except PyError Regions :=
  match findElemList "html" soup with
  | some (.elem _ _ children) =>
    .ok (fmnStateToRegions (fmnFold ⟨[], none, [], none, []⟩ children))
  | _ => .error (.attributeError "\x27NoneType\x27 object has no attribute \x27children\x27")

/-- The value `_diff_elements` produces: the Python function returns either
the string `''` or a tag. -/
inductive DiffResult where
  | str (s : String)
  | node (n : Node)
deriving DecidableEq

/-- Model of `_diff_elements(old, new)` with the external structural diff
engine `hd` as a parameter: `if not old or not new: return ''` uses Python
truthiness (both `None` and a childless tag are falsy); otherwise the result
is a shallow copy of `new`, cleared, with the `htmldiff` output string
appended as its single text child.  Copying a string node and calling
`.clear()` on it would raise `AttributeError`. -/
def diff_elements (hd : String → String → String) (old new : Option Node) :
    Except PyError DiffResult :=
  match old, new with
  | some o, some n =>
    if nodeTruthy o && nodeTruthy n then
      match n with
      | .elem t a _ =>
        .ok (.node (.elem t a (.cons (.text (hd (nodeStr o) (nodeStr n))) .nil)))
      | _ => .error (.attributeError "\x27NavigableString\x27 object has no attribute \x27clear\x27")
    else .ok (.str "")
  | _, _ => .ok (.str "")

mutual
/-- Apply `f` to the first element named `name` (pre-order), returning `none`
when there is no such element.  This models mutating the tag returned by
`find` in place. -/
def mapFirstElemNode (name : String) (f : Node → Node) : Node → Option Node
  | .text _ => none
  | .comment _ => none
  | .elem t a cs =>
    if t == name then some (f (.elem t a cs))
    else
      match mapFirstElemList name f cs with
      | some cs2 => some (.elem t a cs2)
      | none => none
def mapFirstElemList (name : String) (f : Node → Node) : NodeList → Option NodeList
  | .nil => none
  | .cons h rest =>
    match mapFirstElemNode name f h with
    | some h2 => some (.cons h2 rest)
    | none =>
      match mapFirstElemList name f rest with
      | some rest2 => some (.cons h rest2)
      | none => none
end

/-- The CSS text assigned to the injected style tag. -/
def changeStylesCss : String :=
  "ins \x7btext-decoration : none; background-color: #d4fcbc;\x7d\n                        del \x7btext-decoration : none; background-color: #fbb6c2;\x7d"

/-- The injected `<style type="text/css">` element with its CSS text child. -/
def changeStylesTag : Node :=
  .elem "style" [("type", "text/css")] (.cons (.text changeStylesCss) .nil)

/-- Appending a diff to `soup_new.html`: strings become `NavigableString`
children, tags are appended as-is. -/
def diffResultToNode : DiffResult → Node
  | .str s => .text s
  | .node n => n

/-- Set the children of an element (models `tag.clear()` followed by appends). -/
def withChildren (cs : NodeList) : Node → Node
  | .elem t a _ => .elem t a cs
  | n => n

/-- Prepend a child (models `tag.insert(0, child)`). -/
def prependChild (c : Node) : Node → Node
  | .elem t a cs => .elem t a (.cons c cs)
  | n => n

/-- Append a child (models `tag.append(child)`). -/
def appendChild (c : Node) : Node → Node
  | .elem t a cs => .elem t a (cs.append (.cons c .nil))
  | n => n

/-- Steps 7-9 of `html_diff_render`: clear the new document's `html` element
and append the five region diffs in order (strings are appended as text
nodes), insert an empty `head` as the first child of `html` when the document
has no truthy `head` (`if not soup_new.head:`), and append the style tag to
the first `head`.  The `none` branches model the `AttributeError` Python
would raise if `find` returned `None` at the corresponding step. -/
def render_assemble (hd : String → String → String) (rO rN : Regions)
    (d1 d3 : DiffResult) (soupN : Soup) (tab : List (String × Node)) :
    Except PyError (Soup × List (String × Node)) := do
  let newChildren : NodeList := .ofList
    [.text (hd rO.pre_head rN.pre_head), diffResultToNode d1,
     .text (hd rO.pre_body rN.pre_body), diffResultToNode d3,
     .text (hd rO.post_body rN.post_body)]
  let s1 ← match mapFirstElemList "html" (withChildren newChildren) soupN with
    | some s => pure s
    | none => throw (.attributeError "\x27NoneType\x27 object has no attribute \x27clear\x27")
  let s2 ← if optTruthy (findElemList "head" s1) then pure s1
    else
      match mapFirstElemList "html" (prependChild (.elem "head" [] .nil)) s1 with
      | some s => pure s
      | none => throw (.attributeError "\x27NoneType\x27 object has no attribute \x27insert\x27")
  let s3 ← match mapFirstElemList "head" (appendChild changeStylesTag) s2 with
    | some s => pure s
    | none => throw (.attributeError "\x27NoneType\x27 object has no attribute \x27append\x27")
  pure (s3, tab)

/-- Steps 1-9 of `html_diff_render` (everything before the serialize/reparse
round trip): strip comments, shield both documents, split both into regions,
diff the five regions (`hd` is the external `htmldiff` collaborator; the
plain string diffs of the three text regions raise nothing, so computing them
inside `render_assemble` preserves the observable behavior), then assemble.
The merged replacement table models
`replacements_new.update(replacements_old)`: on a key collision the old entry
wins, hence it comes first for lookup. -/
def html_diff_render_mid (hd : String → String → String) (a_soup b_soup : Soup) :
    Except PyError (Soup × List (String × Node)) := do
  let shieldedOld := remove_undiffable_content (cleanList a_soup) "old"
  let shieldedNew := remove_undiffable_content (cleanList b_soup) "new"
  let oldContent ← find_meaningful_nodes shieldedOld.1
  let newContent ← find_meaningful_nodes shieldedNew.1
  let d1 ← diff_elements hd oldContent.head newContent.head
  let d3 ← diff_elements hd oldContent.body newContent.body
  render_assemble hd oldContent newContent d1 d3 shieldedNew.1
    (shieldedOld.2 ++ shieldedNew.2)

/-- Model of `html_diff_render`: after the mid pipeline, serialize with the
external serializer `pretty` (prettify), reparse with the external parser
`reparse`, restore the shielded content, and serialize the result. -/
def html_diff_render (hd : String → String → String) (pretty : Soup → String)
    (reparse : String → Soup) (a_soup b_soup : Soup) : Except PyError String := do
  let mid ← html_diff_render_mid hd a_soup b_soup
  let reparsed := reparse (pretty mid.1)
  let restored ← add_undiffable_content reparsed mid.2
  pure (pretty restored)

mutual
/-- Number of elements with the given tag name, at any depth. -/
def countElemNode (name : String) : Node → Nat
  | .text _ => 0
  | .comment _ => 0
  | .elem t _ cs => (if t == name then 1 else 0) + countElemList name cs
def countElemList (name : String) : NodeList → Nat
  | .nil => 0
  | .cons h rest => countElemNode name h + countElemList name rest
end

/-- Whether the first `head` element of the soup contains the injected style
tag among its children. -/
def firstHeadHasStyle (soup : Soup) : Bool :=
  match findElemList "head" soup with
  | some (.elem _ _ cs) => hasChild cs
  | _ => false
where
  hasChild : NodeList → Bool
    | .nil => false
    | .cons h rest => h == changeStylesTag || hasChild rest

mutual
/-- No script or style element anywhere in the node. -/
def noUndiffableNode : Node → Bool
  | .text _ => true
  | .comment _ => true
  | .elem t _ cs => !isUndiffable t && noUndiffableList cs
def noUndiffableList : NodeList → Bool
  | .nil => true
  | .cons h rest => noUndiffableNode h && noUndiffableList rest
end

mutual
/-- Every script/style element has at least one child and contains no further
script/style element inside it (script and style content is character data in
HTML, so nested matches cannot arise from parsing real documents). -/
def shieldReadyNode : Node → Bool
  | .text _ => true
  | .comment _ => true
  | .elem t _ cs =>
    if isUndiffable t then !cs.isEmpty && noUndiffableList cs
    else shieldReadyList cs
def shieldReadyList : NodeList → Bool
  | .nil => true
  | .cons h rest => shieldReadyNode h && shieldReadyList rest
end

mutual
/-- No element anywhere carries the reserved `wm-diff-replacement` attribute. -/
def noWmAttrNode : Node → Bool
  | .text _ => true
  | .comment _ => true
  | .elem _ a cs => (a.lookup "wm-diff-replacement").isNone && noWmAttrList cs
def noWmAttrList : NodeList → Bool
  | .nil => true
  | .cons h rest => noWmAttrNode h && noWmAttrList rest
end

/-- Every direct child element that is not a script/style placeholder has no
`wm-diff-replacement` attribute (the property of a shielded forest's top
level that the render pipeline needs). -/
def directWmFree : NodeList → Bool
  | .nil => true
  | .cons (.elem t a _) rest =>
    (isUndiffable t || (a.lookup "wm-diff-replacement").isNone) && directWmFree rest
  | .cons _ rest => directWmFree rest

/-- Contract for the serialize/reparse collaborators of `html_diff_render`
(spec section 4.5 step 10: the round trip normalizes the mutated tree back to
a navigable tree representing the same document): reparsing the prettified
mid-pipeline soup yields that soup back. -/
def midRoundTrips (hd : String → String → String) (pretty : Soup → String)
    (reparse : String → Soup) (a_soup b_soup : Soup) : Bool :=
  match html_diff_render_mid hd a_soup b_soup with
  | .ok mid => reparse (pretty mid.1) == mid.1
  | .error _ => true

/-- Claim-side variant of the `_find_meaningful_nodes` loop step, following
the claim text literally: a head/body counts as found as soon as the element
is present, regardless of emptiness. -/
def fmnClaimStep (st : FmnState) (node : Node) : FmnState :=
  if st.head.isNone && st.body.isNone then
    if nodeName node == some "head" then { st with head := some node }
    else if nodeName node == some "body" then { st with body := some node }
    else { st with pre_head := st.pre_head ++ [nodeStr node] }
  else if st.body.isNone then
    if nodeName node == some "body" then { st with body := some node }
    else { st with pre_body := st.pre_body ++ [nodeStr node] }
  else { st with post_body := st.post_body ++ [nodeStr node] }

def fmnClaimFold (st : FmnState) : NodeList → FmnState
  | .nil => st
  | .cons n rest => fmnClaimFold (fmnClaimStep st n) rest

/-- Claim-side variant of `_find_meaningful_nodes` (presence-based phases). -/
def find_meaningful_nodes_claim (soup : Soup) : Except PyError Regions :=
  match findElemList "html" soup with
  | some (.elem _ _ children) =>
    .ok (fmnStateToRegions (fmnClaimFold ⟨[], none, [], none, []⟩ children))
  | _ => .error (.attributeError "\x27NoneType\x27 object has no attribute \x27children\x27")

/-- Phase of the amended classification: no nonempty head or body stored yet /
a nonempty head stored (and no nonempty body) / a nonempty body stored. -/
inductive FmnPhase where
  | scanning
  | headed
  | bodied
deriving DecidableEq

structure FmnAState where
  phase : FmnPhase
  pre_head : List String
  head : Option Node
  pre_body : List String
  body : Option Node
  post_body : List String
deriving DecidableEq

/-- Amended-claim classification step, written with an explicit phase: while
no nonempty head or body has been stored, head-named children are stored in
the head slot (possibly replacing an earlier empty one), body-named children
in the body slot, and all other children accumulate into `pre_head`; once a
nonempty head is stored (and no nonempty body), body-named children are
stored in the body slot and all others accumulate into `pre_body`; once a
nonempty body is stored, every subsequent child accumulates into `post_body`;
non-element children are serialized via their string form. -/
def fmnAmendedStep (st : FmnAState) (node : Node) : FmnAState :=
  match st.phase with
  | .scanning =>
    if nodeName node == some "head" then
      { st with head := some node,
                phase := if nodeTruthy node then .headed else .scanning }
    else if nodeName node == some "body" then
      { st with body := some node,
                phase := if nodeTruthy node then .bodied else .scanning }
    else { st with pre_head := st.pre_head ++ [nodeStr node] }
  | .headed =>
    if nodeName node == some "body" then
      { st with body := some node,
                phase := if nodeTruthy node then .bodied else .headed }
    else { st with pre_body := st.pre_body ++ [nodeStr node] }
  | .bodied => { st with post_body := st.post_body ++ [nodeStr node] }

def fmnAmendedFold (st : FmnAState) : NodeList → FmnAState
  | .nil => st
  | .cons n rest => fmnAmendedFold (fmnAmendedStep st n) rest

def fmnAStateToRegions (st : FmnAState) : Regions :=
  ⟨"\n".intercalate st.pre_head, st.head, "\n".intercalate st.pre_body,
   st.body, "\n".intercalate st.post_body⟩

/-- Amended-claim variant of `_find_meaningful_nodes`. -/
def find_meaningful_nodes_amended (soup : Soup) : Except PyError Regions :=
  match findElemList "html" soup with
  | some (.elem _ _ children) =>
    .ok (fmnAStateToRegions (fmnAmendedFold ⟨.scanning, [], none, [], none, []⟩ children))
  | _ => .error (.attributeError "\x27NoneType\x27 object has no attribute \x27children\x27")

/-- Visible text as the claim words it: visible fragments joined with single
spaces, every run of two-or-more blank or whitespace-only lines collapsed
into exactly two newlines, then trimmed.  A run of two or more consecutive
whitespace-only lines strictly between two other lines corresponds exactly to
a maximal whitespace character run containing at least three newlines; runs
touching either end of the string are whitespace-only prefixes or suffixes
and are removed by the final trim either way, so this formulation is
insensitive to the boundary convention. -/
def get_visible_text_claim (soup : Soup) : String :=
  let joined := " ".intercalate
    (((get_text soup).filter (fun el => !INVISIBLE_TAGS.contains el.1)).map (fun el => el.2))
  (pyStrip (collapseRuns 3 joined.data)).asString

/-- Visible text as amended: every maximal whitespace run containing at least
two newlines is collapsed into exactly two newlines (this is what the
substitution pattern does, and it differs from the claim wording on a run
with exactly two newlines, i.e. a single whitespace-only line). -/
def get_visible_text_amended (soup : Soup) : String :=
  let joined := " ".intercalate
    (((get_text soup).filter (fun el => !INVISIBLE_TAGS.contains el.1)).map (fun el => el.2))
  (pyStrip (collapseRuns 2 joined.data)).asString

/-- The tag translation as the claim words it: `'='` to 0, `'-'` to -1, `'+'`
to 1 (any other tag is outside the engine contract). -/
def claimCode : Char → Int
  | '=' => 0
  | '-' => -1
  | '+' => 1
  | _ => 2

/-- Invariant of the head/body slots of the region-splitting loop: a stored
node is an element with the expected tag name, and (when the children came
from a shielded document that did not use the reserved attribute) it carries
no `wm-diff-replacement` attribute. -/
def slotInv (name : String) (o : Option Node) : Prop :=
  ∀ n, o = some n → ∃ a2 cs, n = Node.elem name a2 cs ∧
    (a2.lookup "wm-diff-replacement").isNone = true

/-- Phase implied by Python truthiness of the loop state's stored nodes. -/
def phaseOf (st : FmnState) : FmnPhase :=
  if optTruthy st.body then .bodied
  else if optTruthy st.head then .headed
  else .scanning

/-- View of a `_find_meaningful_nodes` loop state as an amended-claim state. -/
def fmnConv (st : FmnState) : FmnAState :=
  ⟨phaseOf st, st.pre_head, st.head, st.pre_body, st.body, st.post_body⟩

/-- Decimal digit list of a natural number, most significant digit first
(reference function used to reason about `Nat.repr`). -/
def decDigits (n : Nat) : List Char :=
  if _h : n < 10 then [Nat.digitChar n]
  else decDigits (n / 10) ++ [Nat.digitChar (n % 10)]
decreasing_by exact Nat.div_lt_self (by omega) (by omega)

/-! ### Library-style lemmas: decimal representations and lookups -/

theorem decDigits_lt {n : Nat} (h : n < 10) : decDigits n = [Nat.digitChar n] := by
  rw [decDigits]; simp [h]

theorem decDigits_ge {n : Nat} (h : ¬ n < 10) :
    decDigits n = decDigits (n / 10) ++ [Nat.digitChar (n % 10)] := by
  rw [decDigits]; simp [h]

theorem toDigitsCore_eq_decDigits :
    ∀ (f n : Nat) (acc : List Char), n < f →
      Nat.toDigitsCore 10 f n acc = decDigits n ++ acc := by
  intro f
  induction f with
  | zero => intro n acc h; omega
  | succ f ih =>
    intro n acc h
    rw [Nat.toDigitsCore]
    by_cases h10 : n < 10
    · have hd : n / 10 = 0 := Nat.div_eq_of_lt h10
      simp only [hd, if_pos rfl]
      rw [decDigits_lt h10]
      simp [Nat.mod_eq_of_lt h10]
    · have hd : n / 10 ≠ 0 := by
        intro hc
        have := (Nat.div_eq_zero_iff (by omega : 0 < 10)).mp hc
        omega
      simp only [if_neg hd]
      have hlt : n / 10 < f := by
        have h1 : n / 10 < n := Nat.div_lt_self (by omega) (by omega)
        omega
      rw [ih (n / 10) (Nat.digitChar (n % 10) :: acc) hlt]
      rw [decDigits_ge h10]
      simp

theorem decDigits_ne_nil (n : Nat) : decDigits n ≠ [] := by
  by_cases h : n < 10
  · rw [decDigits_lt h]; simp
  · rw [decDigits_ge h]; simp

theorem digitChar_inj_lt (m n : Nat) (hm : m < 10) (hn : n < 10)
    (h : Nat.digitChar m = Nat.digitChar n) : m = n := by
  interval_cases m <;> interval_cases n <;> simp_all [Nat.digitChar]

theorem decDigits_inj : ∀ (m n : Nat), decDigits m = decDigits n → m = n := by
  intro m
  induction m using Nat.strong_induction_on with
  | _ m ih =>
    intro n h
    by_cases hm : m < 10 <;> by_cases hn : n < 10
    · rw [decDigits_lt hm, decDigits_lt hn] at h
      exact digitChar_inj_lt m n hm hn (by injection h)
    · rw [decDigits_lt hm, decDigits_ge hn] at h
      have hlen := congrArg List.length h
      simp at hlen
      exact absurd hlen.symm (fun hc => decDigits_ne_nil _ hc.symm)
    · rw [decDigits_ge hm, decDigits_lt hn] at h
      have hlen := congrArg List.length h
      simp at hlen
      exact absurd hlen (decDigits_ne_nil _)
    · rw [decDigits_ge hm, decDigits_ge hn] at h
      obtain ⟨h3, h4⟩ := List.append_inj' h (by simp)
      have hdiv : m / 10 = n / 10 :=
        ih (m / 10) (Nat.div_lt_self (by omega) (by omega)) (n / 10) h3
      have hmod : m % 10 = n % 10 := by
        apply digitChar_inj_lt _ _ (Nat.mod_lt _ (by omega)) (Nat.mod_lt _ (by omega))
        injection h4
      omega

theorem nat_repr_inj {m n : Nat} (h : Nat.repr m = Nat.repr n) : m = n := by
  have hrepr : ∀ k : Nat, Nat.repr k = (decDigits k).asString := by
    intro k
    show (Nat.toDigits 10 k).asString = _
    rw [Nat.toDigits, toDigitsCore_eq_decDigits (k+1) k [] (by omega), List.append_nil]
  apply decDigits_inj
  rw [hrepr, hrepr] at h
  exact List.asString_inj.mp h

theorem replacementId_inj (pre : String) {i j : Nat}
    (h : replacementId pre i = replacementId pre j) : i = j := by
  apply nat_repr_inj
  have hd := congrArg String.data h
  simp only [replacementId, String.data_append] at hd
  exact String.ext (List.append_cancel_left hd)

theorem lookup_append_first {β : Type} (k : String) (l1 l2 : List (String × β)) :
    List.lookup k (l1 ++ l2) =
      (match List.lookup k l1 with
       | some v => some v
       | none => List.lookup k l2) := by
  induction l1 with
  | nil => simp [List.lookup]
  | cons p rest ih =>
    by_cases h : k == p.1
    · simp [List.lookup, h]
    · simp [List.lookup, h, ih]

theorem lookup_mem_key {β : Type} (k : String) (l : List (String × β)) {v : β}
    (h : List.lookup k l = some v) : ∃ p ∈ l, p.1 = k := by
  induction l with
  | nil => simp [List.lookup] at h
  | cons p rest ih =>
    by_cases hk : k == p.1
    · exact ⟨p, by simp, by simpa using (beq_iff_eq.mp hk).symm⟩
    · simp [List.lookup, hk] at h
      obtain ⟨q, hq, hqk⟩ := ih h
      exact ⟨q, by simp [hq], hqk⟩

/-! ### Claim C8: identical_bytes is strictly more precise than compare_length -/

/-- C8: `identical_bytes` is strictly more precise than `compare_length`:
equality of bodies forces a zero length difference; some pair has zero length
difference but different contents; and `compare_length` is exactly the length
difference, computed without reading the contents. -/
theorem C8_identical_bytes_vs_length :
    (∀ a b : List Nat, identical_bytes a b = true → compare_length a b = 0) ∧
    (∃ a b : List Nat, compare_length a b = 0 ∧ identical_bytes a b = false) ∧
    (∀ a b : List Nat, compare_length a b = (b.length : Int) - (a.length : Int)) := by
  refine ⟨?_, ⟨[0], [1], by decide, by decide⟩, fun a b => rfl⟩
  intro a b h
  have : a = b := by simpa [identical_bytes] using h
  simp [compare_length, this]

/-- Closed instance of C8 at concrete inputs. -/
theorem C8_identical_bytes_vs_length_witness :
    identical_bytes [7, 8] [7, 8] = true ∧ compare_length [7, 8] [7, 8] = 0 :=
  ⟨by decide, C8_identical_bytes_vs_length.1 [7, 8] [7, 8] (by decide)⟩

/-! ### Claim C3: type mismatch handling of the source diff -/

theorem translateChanges_no_type_error {α : Type} (inj : α → TextVal)
    (l : List (Char × α)) : isTypeError (translateChanges inj l) = false := by
  induction l with
  | nil => rfl
  | cons p rest ih =>
    obtain ⟨c, seg⟩ := p
    simp only [translateChanges]
    match hc : diff_codes.lookup c with
    | none => simp [isTypeError]
    | some k =>
      simp only
      match hr : translateChanges inj rest with
      | .error e =>
        rw [hr] at ih
        simpa [isTypeError] using ih
      | .ok r => simp [isTypeError]

/-- C3: `compute_dmp_diff` (and hence `html_source_diff`) raises `TypeError`
exactly on mixed str/bytes input pairs: both mixed orders produce the
explicit type error, while two strs or two bytes never produce a type error
(any failure there is a `KeyError` from tag translation, not a coercion). -/
theorem C3_mixed_type_error (dstr : StrDiffEngine) (dbytes : BytesDiffEngine)
    (tl : Nat) :
    (∀ (a : String) (b : List Nat),
      compute_dmp_diff dstr dbytes (.str a) (.bytes b) tl =
        .error (.typeError "Both the texts should be either of type \x27str\x27 or \x27bytes\x27.")) ∧
    (∀ (a : List Nat) (b : String),
      compute_dmp_diff dstr dbytes (.bytes a) (.str b) tl =
        .error (.typeError "Both the texts should be either of type \x27str\x27 or \x27bytes\x27.")) ∧
    (∀ a b : String,
      isTypeError (compute_dmp_diff dstr dbytes (.str a) (.str b) tl) = false) ∧
    (∀ a b : List Nat,
      isTypeError (compute_dmp_diff dstr dbytes (.bytes a) (.bytes b) tl) = false) ∧
    (∀ x y : TextVal, html_source_diff dstr dbytes x y = compute_dmp_diff dstr dbytes x y 2) := by
  refine ⟨fun a b => rfl, fun a b => rfl, fun a b => ?_, fun a b => ?_, fun x y => rfl⟩
  · exact translateChanges_no_type_error _ _
  · exact translateChanges_no_type_error _ _

/-! ### Claim C9: diff codes of the translated engine output -/

theorem translateChanges_valid_tags {α : Type} (inj : α → TextVal) :
    ∀ l : List (Char × α),
      (∀ p ∈ l, p.1 = '=' ∨ p.1 = '-' ∨ p.1 = '+') →
      translateChanges inj l = .ok (l.map (fun p => (claimCode p.1, inj p.2))) := by
  intro l
  induction l with
  | nil => intro _; rfl
  | cons p rest ih =>
    intro h
    obtain ⟨c, seg⟩ := p
    have hc := h (c, seg) (by simp)
    have hrest := ih (fun q hq => h q (by simp [hq]))
    rcases hc with hc | hc | hc <;>
      (subst hc; simp only [translateChanges]; rw [hrest]; rfl)

/-- C9: whenever the engine output uses only the documented tags, the result
of `compute_dmp_diff` is the engine output with each tag translated through
the `diff_codes` mapping and the segment kept, so every kind is -1, 0 or 1;
`html_source_diff` and `html_text_diff` delegate to `compute_dmp_diff`. -/
theorem C9_diff_codes_range (dstr : StrDiffEngine) (dbytes : BytesDiffEngine)
    (a b : String) (ab bb : List Nat) (tl : Nat)
    (hs : ∀ p ∈ dstr a b tl, p.1 = '=' ∨ p.1 = '-' ∨ p.1 = '+')
    (hb : ∀ p ∈ dbytes ab bb tl, p.1 = '=' ∨ p.1 = '-' ∨ p.1 = '+') :
    (compute_dmp_diff dstr dbytes (.str a) (.str b) tl =
      .ok ((dstr a b tl).map (fun p => (claimCode p.1, TextVal.str p.2)))) ∧
    (compute_dmp_diff dstr dbytes (.bytes ab) (.bytes bb) tl =
      .ok ((dbytes ab bb tl).map (fun p => (claimCode p.1, TextVal.bytes p.2)))) ∧
    (∀ p ∈ (dstr a b tl).map (fun p => (claimCode p.1, TextVal.str p.2)),
      p.1 = -1 ∨ p.1 = 0 ∨ p.1 = 1) ∧
    (∀ x y : TextVal, html_source_diff dstr dbytes x y = compute_dmp_diff dstr dbytes x y 2) ∧
    (∀ sa sb : Soup, html_text_diff dstr dbytes sa sb =
      compute_dmp_diff dstr dbytes (.str (get_visible_text sa)) (.str (get_visible_text sb)) 2) := by
  refine ⟨translateChanges_valid_tags _ _ hs, translateChanges_valid_tags _ _ hb,
    ?_, fun x y => rfl, fun sa sb => rfl⟩
  intro p hp
  simp only [List.mem_map] at hp
  obtain ⟨q, hq, hpq⟩ := hp
  rcases hs q hq with hc | hc | hc <;> (rw [← hpq, hc]; simp [claimCode])

/-- Closed instance of C9 at a concrete engine and inputs. -/
theorem C9_diff_codes_range_witness :
    compute_dmp_diff (fun _ _ _ => [('-', "De"), ('+', "A"), ('=', "d")])
      (fun _ _ _ => [('=', [1])]) (.str "x") (.str "y") 2 =
      .ok [(-1, .str "De"), (1, .str "A"), (0, .str "d")] := by
  have h := C9_diff_codes_range (fun _ _ _ => [('-', "De"), ('+', "A"), ('=', "d")])
    (fun _ _ _ => [('=', [1])]) "x" "y" [] [] 2 (by decide) (by decide)
  exact h.1

/-! ### Claim C1: restoration with a missing placeholder ID -/

/-- C1 (code bug): restoring a placeholder whose ID is absent from the
replacement table raises `KeyError` instead of leaving the placeholder in
place: `replacements[element['wm-diff-replacement']]` is an indexing
operation, not a `.get`, so the guard `if replacement:` never sees a missing
key. -/
theorem C1_restore_missing_id_raises_key_error :
    add_undiffable_content
      (.ofList [.elem "div" [] (.ofList [placeholderFor "script" "old-0"])]) [] =
      .error (.keyError "old-0") := by decide

/-! ### Claim C10: html_diff_render on a document with no html element -/

/-- C10: when an input soup has no `html` element (as the parser produces for
an empty string), `html_diff_render` raises an `AttributeError` while
accessing the root's children, instead of returning a rendered document; this
holds for every choice of the external collaborators. -/
theorem C10_missing_html_attribute_error (hd : String → String → String)
    (pretty : Soup → String) (reparse : String → Soup) :
    html_diff_render hd pretty reparse .nil .nil =
      .error (.attributeError "\x27NoneType\x27 object has no attribute \x27children\x27") := rfl

/-! ### Claim C4: region classification of the root's children -/

/-- C4 fails on the code: in a document whose root children are an empty
`head`, a `div`, and a `body`, the `div` follows the found head element, so
by the claim it must accumulate into `pre_body`; the code classifies it into
`pre_head` because the stored empty head is falsy (`if not head`).  The first
two conjuncts evaluate the code, the last two the claim's own reading. -/
theorem C4_empty_head_misclassifies :
    (find_meaningful_nodes (.ofList [.elem "html" []
        (.ofList [.elem "head" [] .nil, .elem "div" [] (.ofList [.text "x"]),
          .elem "body" [] (.ofList [.text "y"])])])).map
        (fun r => (r.pre_head, r.pre_body)) = .ok ("<div>x</div>", "") ∧
    (find_meaningful_nodes_claim (.ofList [.elem "html" []
        (.ofList [.elem "head" [] .nil, .elem "div" [] (.ofList [.text "x"]),
          .elem "body" [] (.ofList [.text "y"])])])).map
        (fun r => (r.pre_head, r.pre_body)) = .ok ("", "<div>x</div>") := by
  constructor <;> decide

theorem optTruthy_some (n : Node) : optTruthy (some n) = nodeTruthy n := rfl

theorem fmnStep_amended (st : FmnState) (n : Node) :
    fmnAmendedStep (fmnConv st) n = fmnConv (fmnStep st n) := by
  by_cases hb : optTruthy st.body <;> by_cases hh : optTruthy st.head <;>
    by_cases hnh : nodeName n = some "head" <;>
    by_cases hnb : nodeName n = some "body" <;>
    by_cases hnt : nodeTruthy n = true <;>
    simp_all [fmnConv, fmnStep, fmnAmendedStep, phaseOf, optTruthy_some]

theorem fmnFold_amended : ∀ (l : NodeList) (st : FmnState),
    fmnAmendedFold (fmnConv st) l = fmnConv (fmnFold st l)
  | .nil, _ => rfl
  | .cons n rest, st => by
    simp only [fmnAmendedFold, fmnFold, fmnStep_amended, fmnFold_amended rest]

/-- C4 as amended: classification is driven by nonemptiness (Python
truthiness) of the stored head/body, not bare presence — the code's region
splitting coincides with the explicit three-phase description given by
`fmnAmendedStep` (children before any nonempty head or body accumulate into
`pre_head` while head-named and body-named children are stored into their
slots, possibly replacing an earlier empty one; after a nonempty head,
non-body children accumulate into `pre_body`; after a nonempty body every
child accumulates into `post_body`; non-element children are serialized via
their string form and joined with newlines). -/
theorem C4_region_classification_amended (soup : Soup) :
    find_meaningful_nodes soup = find_meaningful_nodes_amended soup := by
  unfold find_meaningful_nodes find_meaningful_nodes_amended
  match findElemList "html" soup with
  | some (.elem t a children) =>
    simp only
    have h0 : (⟨.scanning, [], none, [], none, []⟩ : FmnAState) =
        fmnConv ⟨[], none, [], none, []⟩ := rfl
    rw [h0, fmnFold_amended children]
    rfl
  | some (.text s) => rfl
  | some (.comment s) => rfl
  | none => rfl

/-! ### Claim C5: element pair differ -/

/-- C5 fails on the code: an empty-but-present head is not diffed — both
inputs are present `head` elements, yet the result is the empty string, not a
copy of the new element (with any engine; the engine is never invoked). -/
theorem C5_empty_head_not_diffed :
    diff_elements (fun _ b => b) (some (.elem "head" [] .nil))
      (some (.elem "head" [] .nil)) = .ok (.str "") := by decide

/-- C5 as amended: the result is empty whenever either input is absent or a
falsy (childless) element, and otherwise it is a copy of the new element that
keeps the new element's tag and attributes and whose entire content is the
structural-diff engine's output over the two serialized markup strings. -/
theorem C5_diff_elements_amended (hd : String → String → String)
    (old new : Option Node) :
    (optTruthy old = false ∨ optTruthy new = false →
      diff_elements hd old new = .ok (.str "")) ∧
    (∀ (o : Node) (t : String) (a : List (String × String)) (cs : NodeList),
      old = some o → new = some (.elem t a cs) →
      optTruthy old = true → optTruthy new = true →
      diff_elements hd old new =
        .ok (.node (.elem t a
          (.cons (.text (hd (nodeStr o) (nodeStr (.elem t a cs)))) .nil)))) := by
  constructor
  · intro h
    match old, new with
    | none, _ => rfl
    | some o, none => rfl
    | some o, some n =>
      simp only [optTruthy] at h
      rcases h with h | h <;> simp [diff_elements, h]
  · intro o t a cs ho hn hto htn
    subst ho; subst hn
    simp only [optTruthy] at hto htn
    simp [diff_elements, hto, htn]

/-- Closed instance of C5 as amended: a nonempty present pair is diffed into
a copy of the new element, an absent side yields the empty result. -/
theorem C5_diff_elements_amended_witness :
    diff_elements (fun a b => a ++ b) (some (.elem "head" [] (.ofList [.text "x"])))
      (some (.elem "head" [("lang", "en")] (.ofList [.text "y"]))) =
      .ok (.node (.elem "head" [("lang", "en")]
        (.cons (.text "<head>x</head><head lang=\x22en\x22>y</head>") .nil))) ∧
    diff_elements (fun a b => a ++ b) none
      (some (.elem "head" [("lang", "en")] (.ofList [.text "y"]))) = .ok (.str "") := by
  constructor
  · have h := (C5_diff_elements_amended (fun a b => a ++ b)
      (some (.elem "head" [] (.ofList [.text "x"])))
      (some (.elem "head" [("lang", "en")] (.ofList [.text "y"])))).2
      (.elem "head" [] (.ofList [.text "x"])) "head" [("lang", "en")]
      (.ofList [.text "y"]) rfl rfl (by decide) (by decide)
    rw [h]
    decide
  · exact (C5_diff_elements_amended (fun a b => a ++ b) none
      (some (.elem "head" [("lang", "en")] (.ofList [.text "y"])))).1 (Or.inl rfl)

/-! ### Claim C7: visible text extraction -/

/-- C7 fails on the code for the collapse step: in `a\n\t\nb` the tab line is
a single whitespace-only line, so the claim's collapse (two-or-more such
lines) leaves the text unchanged, but the substitution pattern
`([^\S\n]*\n\s*){2,}` already fires on this two-newline whitespace run and
rewrites it to exactly two newlines. -/
theorem C7_single_blank_line_collapsed :
    get_visible_text (.ofList [.elem "html" [] (.ofList [.elem "body" []
        (.ofList [.elem "p" [] (.ofList [.text "a\n\t\nb"])])])]) = "a\n\nb" ∧
    get_visible_text_claim (.ofList [.elem "html" [] (.ofList [.elem "body" []
        (.ofList [.elem "p" [] (.ofList [.text "a\n\t\nb"])])])]) = "a\n\t\nb" := by
  constructor <;> decide

theorem matchesCommentRe_bytesRepr (s : String) :
    matchesCommentRe (pyBytesRepr s) = false := rfl

theorem is_visible_eq_invisible_tags (el : String × String) :
    is_visible el = !INVISIBLE_TAGS.contains el.1 := by
  unfold is_visible
  rw [matchesCommentRe_bytesRepr]
  by_cases h : INVISIBLE_TAGS.contains el.1 <;> simp [h]

/-- C7 as amended: `_get_visible_text` equals the pipeline the claim
describes — visible fragments (text nodes whose nearest containing element is
not style, script, the document root, head or title, comments removed first)
joined with single spaces and trimmed — with the collapse step corrected to
what the substitution pattern does: every maximal whitespace run containing
at least two newlines becomes exactly two newlines (the comment-pattern test
inside `_is_visible` is dead code, since the bytes-repr it inspects always
starts with `b`). -/
theorem C7_visible_text_amended (soup : Soup) :
    get_visible_text soup = get_visible_text_amended soup := by
  unfold get_visible_text get_visible_text_amended
  have h : (get_text soup).filter is_visible =
      (get_text soup).filter (fun el => !INVISIBLE_TAGS.contains el.1) :=
    List.filter_congr (fun el _ => is_visible_eq_invisible_tags el)
  rw [h]

/-! ### Claim C2: shield/unshield round trip -/

mutual
theorem shieldNode_noop (pre : String) : ∀ (n : Node) (k : Nat),
    noUndiffableNode n = true → shieldNode pre n k = (n, [], k)
  | .text s, k, _ => rfl
  | .comment s, k, _ => rfl
  | .elem t a cs, k, h => by
    obtain ⟨h1, h2⟩ : isUndiffable t = false ∧ noUndiffableList cs = true := by
      simpa [noUndiffableNode] using h
    simp [shieldNode, h1, shieldList_noop pre cs k h2]
theorem shieldList_noop (pre : String) : ∀ (l : NodeList) (k : Nat),
    noUndiffableList l = true → shieldList pre l k = (l, [], k)
  | .nil, k, _ => rfl
  | .cons hd tl, k, h => by
    obtain ⟨h1, h2⟩ : noUndiffableNode hd = true ∧ noUndiffableList tl = true := by
      simpa [noUndiffableList] using h
    simp [shieldList, shieldNode_noop pre hd k h1, shieldList_noop pre tl k h2]
end

mutual
theorem shieldNode_keys (pre : String) : ∀ (n : Node) (k : Nat),
    k ≤ (shieldNode pre n k).2.2 ∧
    ∀ p ∈ (shieldNode pre n k).2.1,
      ∃ j, k ≤ j ∧ j < (shieldNode pre n k).2.2 ∧ p.1 = replacementId pre j
  | .text s, k => ⟨Nat.le_refl k, by intro p hp; simp [shieldNode] at hp⟩
  | .comment s, k => ⟨Nat.le_refl k, by intro p hp; simp [shieldNode] at hp⟩
  | .elem t a cs, k => by
    by_cases h : isUndiffable t
    · obtain ⟨hle, hkeys⟩ := shieldList_keys pre cs (k + 1)
      constructor
      · simp only [shieldNode, h, if_true]
        omega
      · intro p hp
        simp only [shieldNode, h, if_true] at hp ⊢
        rcases List.mem_cons.mp hp with hp | hp
        · exact ⟨k, Nat.le_refl k, by omega, by rw [hp]⟩
        · obtain ⟨j, hj1, hj2, hj3⟩ := hkeys p hp
          exact ⟨j, by omega, hj2, hj3⟩
    · obtain ⟨hle, hkeys⟩ := shieldList_keys pre cs k
      constructor
      · simpa only [shieldNode, h, if_false] using hle
      · intro p hp
        simp only [shieldNode, h, if_false] at hp ⊢
        exact hkeys p hp
theorem shieldList_keys (pre : String) : ∀ (l : NodeList) (k : Nat),
    k ≤ (shieldList pre l k).2.2 ∧
    ∀ p ∈ (shieldList pre l k).2.1,
      ∃ j, k ≤ j ∧ j < (shieldList pre l k).2.2 ∧ p.1 = replacementId pre j
  | .nil, k => ⟨Nat.le_refl k, by intro p hp; simp [shieldList] at hp⟩
  | .cons hd tl, k => by
    obtain ⟨hle1, hkeys1⟩ := shieldNode_keys pre hd k
    obtain ⟨hle2, hkeys2⟩ := shieldList_keys pre tl (shieldNode pre hd k).2.2
    constructor
    · simp only [shieldList]
      omega
    · intro p hp
      simp only [shieldList, List.mem_append] at hp ⊢
      rcases hp with hp | hp
      · obtain ⟨j, hj1, hj2, hj3⟩ := hkeys1 p hp
        exact ⟨j, hj1, by omega, hj3⟩
      · obtain ⟨j, hj1, hj2, hj3⟩ := hkeys2 p hp
        exact ⟨j, by omega, by omega, hj3⟩
end

mutual
theorem unshield_shieldNode (pre : String) :
    ∀ (n : Node) (k : Nat) (pt qt : List (String × Node)),
    shieldReadyNode n = true → noWmAttrNode n = true →
    (∀ j, k ≤ j → j < (shieldNode pre n k).2.2 →
      List.lookup (replacementId pre j) pt = none) →
    unshieldNode (pt ++ (shieldNode pre n k).2.1 ++ qt) (shieldNode pre n k).1 = .ok n
  | .text s, k, pt, qt, _, _, _ => rfl
  | .comment s, k, pt, qt, _, _, _ => rfl
  | .elem t a cs, k, pt, qt, hready, hwm, hpt => by
    by_cases h : isUndiffable t
    · obtain ⟨hne, hnu⟩ : cs.isEmpty = false ∧ noUndiffableList cs = true := by
        simpa [shieldReadyNode, h] using hready
      have hcs : shieldList pre cs (k + 1) = (cs, [], k + 1) := shieldList_noop pre cs (k + 1) hnu
      have hmain : shieldNode pre (.elem t a cs) k =
          (placeholderFor t (replacementId pre k),
           [(replacementId pre k, .elem t a cs)], k + 1) := by
        simp [shieldNode, h, hcs]
      have hpt0 : List.lookup (replacementId pre k) pt = none :=
        hpt k (Nat.le_refl k) (by rw [hmain]; show k < k + 1; omega)
      rw [hmain]
      simp only [placeholderFor, unshieldNode, List.lookup, beq_self_eq_true,
        lookup_append_first, hpt0, nodeTruthy, hne]
      simp
    · obtain ⟨hwa, hwcs⟩ : (a.lookup "wm-diff-replacement").isNone = true ∧
          noWmAttrList cs = true := by simpa [noWmAttrNode] using hwm
      have hrcs : shieldReadyList cs = true := by simpa [shieldReadyNode, h] using hready
      have hmain : shieldNode pre (.elem t a cs) k =
          (.elem t a (shieldList pre cs k).1, (shieldList pre cs k).2.1,
           (shieldList pre cs k).2.2) := by
        simp [shieldNode, h]
      have hrec := unshield_shieldList pre cs k pt qt hrcs hwcs
        (fun j hj1 hj2 => hpt j hj1 (by
          rw [hmain]
          show j < (shieldList pre cs k).2.2
          exact hj2))
      rw [hmain]
      simp only [unshieldNode]
      rw [Option.isNone_iff_eq_none.mp hwa]
      rw [hrec]
theorem unshield_shieldList (pre : String) :
    ∀ (l : NodeList) (k : Nat) (pt qt : List (String × Node)),
    shieldReadyList l = true → noWmAttrList l = true →
    (∀ j, k ≤ j → j < (shieldList pre l k).2.2 →
      List.lookup (replacementId pre j) pt = none) →
    unshieldList (pt ++ (shieldList pre l k).2.1 ++ qt) (shieldList pre l k).1 = .ok l
  | .nil, k, pt, qt, _, _, _ => rfl
  | .cons hd tl, k, pt, qt, hready, hwm, hpt => by
    obtain ⟨hr1, hr2⟩ : shieldReadyNode hd = true ∧ shieldReadyList tl = true := by
      simpa [shieldReadyList] using hready
    obtain ⟨hw1, hw2⟩ : noWmAttrNode hd = true ∧ noWmAttrList tl = true := by
      simpa [noWmAttrList] using hwm
    obtain ⟨hle1, hkeys1⟩ := shieldNode_keys pre hd k
    obtain ⟨hle2, _⟩ := shieldList_keys pre tl (shieldNode pre hd k).2.2
    have hmain : shieldList pre (.cons hd tl) k =
        (.cons (shieldNode pre hd k).1 (shieldList pre tl (shieldNode pre hd k).2.2).1,
         (shieldNode pre hd k).2.1 ++ (shieldList pre tl (shieldNode pre hd k).2.2).2.1,
         (shieldList pre tl (shieldNode pre hd k).2.2).2.2) := by
      simp [shieldList]
    rw [hmain]
    simp only [unshieldList]
    have hhd : unshieldNode
        (pt ++ ((shieldNode pre hd k).2.1 ++
          (shieldList pre tl (shieldNode pre hd k).2.2).2.1) ++ qt)
        (shieldNode pre hd k).1 = .ok hd := by
      have hassoc : pt ++ ((shieldNode pre hd k).2.1 ++
            (shieldList pre tl (shieldNode pre hd k).2.2).2.1) ++ qt =
          pt ++ (shieldNode pre hd k).2.1 ++
            ((shieldList pre tl (shieldNode pre hd k).2.2).2.1 ++ qt) := by
        simp [List.append_assoc]
      rw [hassoc]
      exact unshield_shieldNode pre hd k pt _ hr1 hw1
        (fun j hj1 hj2 => hpt j hj1 (by
          rw [hmain]
          show j < (shieldList pre tl (shieldNode pre hd k).2.2).2.2
          omega))
    rw [hhd]
    have htl : unshieldList
        (pt ++ ((shieldNode pre hd k).2.1 ++
          (shieldList pre tl (shieldNode pre hd k).2.2).2.1) ++ qt)
        (shieldList pre tl (shieldNode pre hd k).2.2).1 = .ok tl := by
      have hassoc : pt ++ ((shieldNode pre hd k).2.1 ++
            (shieldList pre tl (shieldNode pre hd k).2.2).2.1) ++ qt =
          (pt ++ (shieldNode pre hd k).2.1) ++
            (shieldList pre tl (shieldNode pre hd k).2.2).2.1 ++ qt := by
        simp [List.append_assoc]
      rw [hassoc]
      apply unshield_shieldList pre tl (shieldNode pre hd k).2.2 _ qt hr2 hw2
      intro j hj1 hj2
      rw [lookup_append_first]
      have hpt0 : List.lookup (replacementId pre j) pt = none := by
        apply hpt j (by omega)
        rw [hmain]
        show j < (shieldList pre tl (shieldNode pre hd k).2.2).2.2
        omega
      rw [hpt0]
      match hl : List.lookup (replacementId pre j) (shieldNode pre hd k).2.1 with
      | none => rfl
      | some v =>
        obtain ⟨p, hp, hpk⟩ := lookup_mem_key _ _ hl
        obtain ⟨j2, hj21, hj22, hj23⟩ := hkeys1 p hp
        have : j = j2 := replacementId_inj pre (by rw [← hpk, hj23])
        omega
    rw [htl]
end

/-- C2 fails on the code for an empty script element: the stored original is
a childless (falsy) tag, so the restore guard `if replacement:` skips the
replacement and the placeholder (with its `wm-diff-replacement` attribute and
token text) survives the round trip. -/
theorem C2_empty_script_round_trip_fails :
    (remove_undiffable_content (.ofList [.elem "script" [] .nil]) "old").1 =
      .ofList [placeholderFor "script" "old-0"] ∧
    add_undiffable_content (.ofList [placeholderFor "script" "old-0"])
      (remove_undiffable_content (.ofList [.elem "script" [] .nil]) "old").2 =
      .ok (.ofList [placeholderFor "script" "old-0"]) ∧
    (.ofList [placeholderFor "script" "old-0"] : Soup) ≠
      .ofList [.elem "script" [] .nil] := by
  refine ⟨by decide, by decide, by decide⟩

/-- C2 as amended: for every document in which each script/style element has
at least one child (and, as parsed HTML guarantees, no script/style element
nested inside another, and no preexisting use of the reserved
`wm-diff-replacement` attribute), restoring with the replacement table the
shield produced reconstructs the original document exactly — every shielded
element returns with the same tag, attributes and content, and since the
result equals the original, no placeholder attribute or token remains. -/
theorem C2_shield_unshield_round_trip (soup : Soup) (pre : String)
    (h1 : shieldReadyList soup = true) (h2 : noWmAttrList soup = true) :
    add_undiffable_content (remove_undiffable_content soup pre).1
      (remove_undiffable_content soup pre).2 = .ok soup := by
  unfold add_undiffable_content remove_undiffable_content
  have h := unshield_shieldList pre soup 0 [] [] h1 h2 (fun _ _ _ => rfl)
  simpa using h

/-- Closed instance of C2 as amended at a concrete document with a nonempty
script and a nonempty style element. -/
theorem C2_shield_unshield_round_trip_witness :
    add_undiffable_content
      (remove_undiffable_content (.ofList [.elem "html" []
        (.ofList [.elem "head" [] (.ofList [.elem "style" [("media", "all")]
            (.ofList [.text "p \x7bcolor: red\x7d"])]),
          .elem "body" [] (.ofList [.elem "script" [("src", "a.js")]
            (.ofList [.text "f();"]), .text "hi"])])]) "old").1
      (remove_undiffable_content (.ofList [.elem "html" []
        (.ofList [.elem "head" [] (.ofList [.elem "style" [("media", "all")]
            (.ofList [.text "p \x7bcolor: red\x7d"])]),
          .elem "body" [] (.ofList [.elem "script" [("src", "a.js")]
            (.ofList [.text "f();"]), .text "hi"])])]) "old").2 =
      .ok (.ofList [.elem "html" []
        (.ofList [.elem "head" [] (.ofList [.elem "style" [("media", "all")]
            (.ofList [.text "p \x7bcolor: red\x7d"])]),
          .elem "body" [] (.ofList [.elem "script" [("src", "a.js")]
            (.ofList [.text "f();"]), .text "hi"])])]) :=
  C2_shield_unshield_round_trip _ "old" (by decide) (by decide)

/-! ### Claim C6: the rendered diff has exactly one head with the style tag -/

theorem pybind_ok {α β : Type} (a : α) (f : α → Except PyError β) :
    (Except.ok a : Except PyError α) >>= f = f a := rfl

mutual
theorem unshieldNode_noop : ∀ (tab : List (String × Node)) (n : Node),
    noWmAttrNode n = true → unshieldNode tab n = .ok n
  | _, .text s, _ => rfl
  | _, .comment s, _ => rfl
  | tab, .elem t a cs, h => by
    obtain ⟨ha, hcs⟩ : (a.lookup "wm-diff-replacement").isNone = true ∧
        noWmAttrList cs = true := by simpa [noWmAttrNode] using h
    simp only [unshieldNode, Option.isNone_iff_eq_none.mp ha,
      unshieldList_noop tab cs hcs]
theorem unshieldList_noop : ∀ (tab : List (String × Node)) (l : NodeList),
    noWmAttrList l = true → unshieldList tab l = .ok l
  | _, .nil, _ => rfl
  | tab, .cons hd tl, h => by
    obtain ⟨h1, h2⟩ : noWmAttrNode hd = true ∧ noWmAttrList tl = true := by
      simpa [noWmAttrList] using h
    simp only [unshieldList, unshieldNode_noop tab hd h1, unshieldList_noop tab tl h2]
end

mutual
theorem noWm_cleanNode : ∀ (n : Node),
    noWmAttrNode n = true → noWmAttrNode (cleanNode n) = true
  | .text s, h => h
  | .comment s, h => h
  | .elem t a cs, h => by
    obtain ⟨ha, hcs⟩ : (a.lookup "wm-diff-replacement").isNone = true ∧
        noWmAttrList cs = true := by simpa [noWmAttrNode] using h
    simpa [cleanNode, noWmAttrNode, ha] using noWm_cleanList cs hcs
theorem noWm_cleanList : ∀ (l : NodeList),
    noWmAttrList l = true → noWmAttrList (cleanList l) = true
  | .nil, h => h
  | .cons (.text s) tl, h => by
    obtain ⟨h1, h2⟩ : noWmAttrNode (.text s) = true ∧ noWmAttrList tl = true := by
      simpa [noWmAttrList] using h
    simpa [cleanList, cleanNode, noWmAttrList, noWmAttrNode] using noWm_cleanList tl h2
  | .cons (.comment s) tl, h => by
    obtain ⟨h1, h2⟩ : noWmAttrNode (.comment s) = true ∧ noWmAttrList tl = true := by
      simpa [noWmAttrList] using h
    simpa [cleanList] using noWm_cleanList tl h2
  | .cons (.elem t a cs) tl, h => by
    obtain ⟨h1, h2⟩ : noWmAttrNode (.elem t a cs) = true ∧ noWmAttrList tl = true := by
      simpa [noWmAttrList] using h
    simp only [cleanList, noWmAttrList, noWm_cleanNode (.elem t a cs) h1,
      noWm_cleanList tl h2, Bool.and_self]
end

theorem directWmFree_shieldList : ∀ (l : NodeList) (pre : String) (k : Nat),
    noWmAttrList l = true → directWmFree (shieldList pre l k).1 = true
  | .nil, _, _, _ => rfl
  | .cons (.text s) tl, pre, k, h => by
    have h2 : noWmAttrList tl = true := by
      simpa [noWmAttrList, noWmAttrNode] using h
    simpa [shieldList, shieldNode, directWmFree] using
      directWmFree_shieldList tl pre k h2
  | .cons (.comment s) tl, pre, k, h => by
    have h2 : noWmAttrList tl = true := by
      simpa [noWmAttrList, noWmAttrNode] using h
    simpa [shieldList, shieldNode, directWmFree] using
      directWmFree_shieldList tl pre k h2
  | .cons (.elem t a cs) tl, pre, k, h => by
    obtain ⟨⟨ha, hcs⟩, htl⟩ : ((a.lookup "wm-diff-replacement").isNone = true ∧
        noWmAttrList cs = true) ∧ noWmAttrList tl = true := by
      simpa [noWmAttrList, noWmAttrNode] using h
    by_cases hu : isUndiffable t
    · simpa [shieldList, shieldNode, hu, directWmFree, placeholderFor] using
        directWmFree_shieldList tl pre _ htl
    · simpa [shieldList, shieldNode, hu, directWmFree, ha] using
        directWmFree_shieldList tl pre _ htl

theorem fmnStep_cases (st : FmnState) (n : Node) :
    ((fmnStep st n).head = st.head ∧ (fmnStep st n).body = st.body) ∨
    ((fmnStep st n).head = some n ∧ nodeName n = some "head" ∧
      (fmnStep st n).body = st.body) ∨
    ((fmnStep st n).body = some n ∧ nodeName n = some "body" ∧
      (fmnStep st n).head = st.head) := by
  unfold fmnStep
  by_cases h1 : (!optTruthy st.head && !optTruthy st.body) = true
  · rw [if_pos h1]
    by_cases h2 : (nodeName n == some "head") = true
    · rw [if_pos h2]
      exact Or.inr (Or.inl ⟨rfl, by simpa using h2, rfl⟩)
    · rw [if_neg h2]
      by_cases h3 : (nodeName n == some "body") = true
      · rw [if_pos h3]
        exact Or.inr (Or.inr ⟨rfl, by simpa using h3, rfl⟩)
      · rw [if_neg h3]
        exact Or.inl ⟨rfl, rfl⟩
  · rw [if_neg h1]
    by_cases h4 : (!optTruthy st.body) = true
    · rw [if_pos h4]
      by_cases h3 : (nodeName n == some "body") = true
      · rw [if_pos h3]
        exact Or.inr (Or.inr ⟨rfl, by simpa using h3, rfl⟩)
      · rw [if_neg h3]
        exact Or.inl ⟨rfl, rfl⟩
    · rw [if_neg h4]
      exact Or.inl ⟨rfl, rfl⟩

theorem fmnFold_slotInv : ∀ (l : NodeList) (st : FmnState),
    directWmFree l = true → slotInv "head" st.head → slotInv "body" st.body →
    slotInv "head" (fmnFold st l).head ∧ slotInv "body" (fmnFold st l).body
  | .nil, st, _, hh, hb => ⟨hh, hb⟩
  | .cons n tl, st, hdwf, hh, hb => by
    have htl : directWmFree tl = true := by
      cases n with
      | text s => simpa [directWmFree] using hdwf
      | comment s => simpa [directWmFree] using hdwf
      | elem t a cs =>
        have h2 : (isUndiffable t || (a.lookup "wm-diff-replacement").isNone) = true ∧
            directWmFree tl = true := by
          simpa [directWmFree] using hdwf
        exact h2.2
    have hstored : ∀ name, nodeName n = some name → isUndiffable name = false →
        ∃ a2 cs, n = Node.elem name a2 cs ∧
          (a2.lookup "wm-diff-replacement").isNone = true := by
      intro name hname hnu
      cases n with
      | text s => simp [nodeName] at hname
      | comment s => simp [nodeName] at hname
      | elem t a cs =>
        have ht : t = name := by simpa [nodeName] using hname
        refine ⟨a, cs, by rw [ht], ?_⟩
        have hw : (isUndiffable t || (a.lookup "wm-diff-replacement").isNone) = true ∧
            directWmFree tl = true := by
          simpa [directWmFree] using hdwf
        have hw1 := hw.1
        rw [ht] at hw1
        simpa [hnu] using hw1
    have hstep : slotInv "head" (fmnStep st n).head ∧
        slotInv "body" (fmnStep st n).body := by
      rcases fmnStep_cases st n with ⟨e1, e2⟩ | ⟨e1, e2, e3⟩ | ⟨e1, e2, e3⟩
      · rw [e1, e2]; exact ⟨hh, hb⟩
      · constructor
        · rw [e1]
          intro m hm
          cases hm
          exact hstored "head" e2 rfl
        · rw [e3]; exact hb
      · constructor
        · rw [e3]; exact hh
        · rw [e1]
          intro m hm
          cases hm
          exact hstored "body" e2 rfl
    exact fmnFold_slotInv tl (fmnStep st n) htl hstep.1 hstep.2

theorem diff_elements_shape (hd : String → String → String) (o : Option Node)
    (name : String) (nOpt : Option Node) (hinv : slotInv name nOpt) :
    diff_elements hd o nOpt = .ok (.str "") ∨
    ∃ a2 s, diff_elements hd o nOpt = .ok (.node (.elem name a2 (.cons (.text s) .nil))) ∧
      (a2.lookup "wm-diff-replacement").isNone = true := by
  match o, nOpt with
  | none, none => exact Or.inl rfl
  | none, some n => exact Or.inl rfl
  | some o, none => exact Or.inl rfl
  | some o, some n =>
    obtain ⟨a2, cs2, rfl, hw⟩ := hinv n rfl
    by_cases h : (nodeTruthy o && nodeTruthy (.elem name a2 cs2)) = true
    · exact Or.inr ⟨a2, hd (nodeStr o) (nodeStr (.elem name a2 cs2)),
        by simp [diff_elements, h], hw⟩
    · exact Or.inl (by simp [diff_elements, h])

theorem html_diff_render_mid_eq (hd : String → String → String) (sO sN : Soup)
    (rO rN : Regions) (d1 d3 : DiffResult)
    (hO : find_meaningful_nodes (remove_undiffable_content (cleanList sO) "old").1 = .ok rO)
    (hN : find_meaningful_nodes (remove_undiffable_content (cleanList sN) "new").1 = .ok rN)
    (h1 : diff_elements hd rO.head rN.head = .ok d1)
    (h3 : diff_elements hd rO.body rN.body = .ok d3) :
    html_diff_render_mid hd sO sN = render_assemble hd rO rN d1 d3
      (remove_undiffable_content (cleanList sN) "new").1
      ((remove_undiffable_content (cleanList sO) "old").2 ++
        (remove_undiffable_content (cleanList sN) "new").2) := by
  simp only [html_diff_render_mid]
  rw [hO, hN]
  simp only [pybind_ok]
  rw [h1]
  simp only [pybind_ok]
  rw [h3]
  simp only [pybind_ok]

theorem render_assemble_props (hd : String → String → String) (rO rN : Regions)
    (d1 d3 : DiffResult) (aN : List (String × String)) (cN2 : NodeList)
    (tab : List (String × Node))
    (hd1 : d1 = .str "" ∨ ∃ a2 s, d1 = .node (.elem "head" a2 (.cons (.text s) .nil)) ∧
      (a2.lookup "wm-diff-replacement").isNone = true)
    (hd3 : d3 = .str "" ∨ ∃ a2 s, d3 = .node (.elem "body" a2 (.cons (.text s) .nil)) ∧
      (a2.lookup "wm-diff-replacement").isNone = true)
    (haN : (aN.lookup "wm-diff-replacement").isNone = true) :
    ∃ mid, render_assemble hd rO rN d1 d3 (.cons (.elem "html" aN cN2) .nil) tab =
        .ok (mid, tab) ∧
      countElemList "head" mid = 1 ∧ firstHeadHasStyle mid = true ∧
      noWmAttrList mid = true := by
  have hsty : noWmAttrNode changeStylesTag = true := by decide
  have hins : noWmAttrNode (.elem "head" [] (.cons changeStylesTag .nil)) = true := by decide
  rcases hd1 with rfl | ⟨aH, sH, rfl, hwmH⟩ <;>
    rcases hd3 with rfl | ⟨aB, sB, rfl, hwmB⟩
  · refine ⟨.cons (.elem "html" aN (.cons (.elem "head" [] (.cons changeStylesTag .nil))
      (.cons (.text (hd rO.pre_head rN.pre_head)) (.cons (.text "")
      (.cons (.text (hd rO.pre_body rN.pre_body)) (.cons (.text "")
      (.cons (.text (hd rO.post_body rN.post_body)) .nil))))))) .nil, rfl, rfl, rfl, ?_⟩
    simp [noWmAttrList, noWmAttrNode, changeStylesTag, List.lookup, haN]
  · refine ⟨.cons (.elem "html" aN (.cons (.elem "head" [] (.cons changeStylesTag .nil))
      (.cons (.text (hd rO.pre_head rN.pre_head)) (.cons (.text "")
      (.cons (.text (hd rO.pre_body rN.pre_body)) (.cons (.elem "body" aB (.cons (.text sB) .nil))
      (.cons (.text (hd rO.post_body rN.post_body)) .nil))))))) .nil, rfl, rfl, rfl, ?_⟩
    simp [noWmAttrList, noWmAttrNode, changeStylesTag, List.lookup, haN, hwmB]
  · refine ⟨.cons (.elem "html" aN
      (.cons (.text (hd rO.pre_head rN.pre_head))
      (.cons (.elem "head" aH (.cons (.text sH) (.cons changeStylesTag .nil)))
      (.cons (.text (hd rO.pre_body rN.pre_body)) (.cons (.text "")
      (.cons (.text (hd rO.post_body rN.post_body)) .nil)))))) .nil, rfl, rfl, rfl, ?_⟩
    simp [noWmAttrList, noWmAttrNode, changeStylesTag, List.lookup, haN, hwmH]
  · refine ⟨.cons (.elem "html" aN
      (.cons (.text (hd rO.pre_head rN.pre_head))
      (.cons (.elem "head" aH (.cons (.text sH) (.cons changeStylesTag .nil)))
      (.cons (.text (hd rO.pre_body rN.pre_body))
      (.cons (.elem "body" aB (.cons (.text sB) .nil))
      (.cons (.text (hd rO.post_body rN.post_body)) .nil)))))) .nil, rfl, rfl, rfl, ?_⟩
    simp [noWmAttrList, noWmAttrNode, changeStylesTag, List.lookup, haN, hwmH, hwmB]

/-- C6 fails on the code as universally stated: for inputs that parse to a
tree with no `html` element (as the parser yields for an empty document),
`html_diff_render` raises instead of returning a document with one head. -/
theorem C6_headless_document_raises :
    html_diff_render (fun _ b => b) renderChildren (fun _ => .nil)
      (.ofList [.elem "div" [] (.ofList [.text "x"])])
      (.ofList [.elem "div" [] (.ofList [.text "x"])]) =
      .error (.attributeError "\x27NoneType\x27 object has no attribute \x27children\x27") := by
  decide

/-- C6 as amended: for every pair of inputs that parse to a document with an
`html` root element, where the new document does not already use the reserved
`wm-diff-replacement` attribute and the serialize/reparse collaborators
round-trip the assembled tree (their contract, spec 4.5 step 10), the
document serialized by `html_diff_render` contains exactly one `head`
element, and that head contains the injected style element with the
insertion/deletion CSS rules; inputs with no `html` root raise an attribute
error instead. -/
theorem C6_render_single_head_with_style (hd : String → String → String)
    (pretty : Soup → String) (reparse : String → Soup)
    (aO aN : List (String × String)) (cO cN : NodeList)
    (hwm : noWmAttrList (.cons (.elem "html" aN cN) .nil) = true)
    (hrt : midRoundTrips hd pretty reparse (.cons (.elem "html" aO cO) .nil)
      (.cons (.elem "html" aN cN) .nil) = true) :
    ∃ doc : Soup,
      html_diff_render hd pretty reparse (.cons (.elem "html" aO cO) .nil)
        (.cons (.elem "html" aN cN) .nil) = .ok (pretty doc) ∧
      countElemList "head" doc = 1 ∧ firstHeadHasStyle doc = true := by
  obtain ⟨haN, hcN⟩ : (aN.lookup "wm-diff-replacement").isNone = true ∧
      noWmAttrList cN = true := by
    simpa [noWmAttrList, noWmAttrNode] using hwm
  have hdwf : directWmFree (shieldList "new" (cleanList cN) 0).1 = true :=
    directWmFree_shieldList (cleanList cN) "new" 0 (noWm_cleanList cN hcN)
  have hinv := fmnFold_slotInv (shieldList "new" (cleanList cN) 0).1
    ⟨[], none, [], none, []⟩ hdwf (fun n h => by simp at h) (fun n h => by simp at h)
  have hsh1 := diff_elements_shape hd
    (fmnFold ⟨[], none, [], none, []⟩ (shieldList "old" (cleanList cO) 0).1).head "head"
    (fmnFold ⟨[], none, [], none, []⟩ (shieldList "new" (cleanList cN) 0).1).head hinv.1
  have hsh3 := diff_elements_shape hd
    (fmnFold ⟨[], none, [], none, []⟩ (shieldList "old" (cleanList cO) 0).1).body "body"
    (fmnFold ⟨[], none, [], none, []⟩ (shieldList "new" (cleanList cN) 0).1).body hinv.2
  have hform : (remove_undiffable_content
      (cleanList (.cons (.elem "html" aN cN) .nil)) "new").1 =
      .cons (.elem "html" aN (shieldList "new" (cleanList cN) 0).1) .nil := rfl
  have main : ∀ d1v d3v : DiffResult,
      diff_elements hd
        (fmnFold ⟨[], none, [], none, []⟩ (shieldList "old" (cleanList cO) 0).1).head
        (fmnFold ⟨[], none, [], none, []⟩ (shieldList "new" (cleanList cN) 0).1).head =
        .ok d1v →
      diff_elements hd
        (fmnFold ⟨[], none, [], none, []⟩ (shieldList "old" (cleanList cO) 0).1).body
        (fmnFold ⟨[], none, [], none, []⟩ (shieldList "new" (cleanList cN) 0).1).body =
        .ok d3v →
      (d1v = .str "" ∨ ∃ a2 s, d1v = .node (.elem "head" a2 (.cons (.text s) .nil)) ∧
        (a2.lookup "wm-diff-replacement").isNone = true) →
      (d3v = .str "" ∨ ∃ a2 s, d3v = .node (.elem "body" a2 (.cons (.text s) .nil)) ∧
        (a2.lookup "wm-diff-replacement").isNone = true) →
      ∃ doc : Soup,
        html_diff_render hd pretty reparse (.cons (.elem "html" aO cO) .nil)
          (.cons (.elem "html" aN cN) .nil) = .ok (pretty doc) ∧
        countElemList "head" doc = 1 ∧ firstHeadHasStyle doc = true := by
    intro d1v d3v h1 h3 hd1shape hd3shape
    obtain ⟨mid, hmideq, hcount, hstyle, hnowm⟩ := render_assemble_props hd
      (fmnStateToRegions (fmnFold ⟨[], none, [], none, []⟩
        (shieldList "old" (cleanList cO) 0).1))
      (fmnStateToRegions (fmnFold ⟨[], none, [], none, []⟩
        (shieldList "new" (cleanList cN) 0).1))
      d1v d3v aN (shieldList "new" (cleanList cN) 0).1
      ((remove_undiffable_content (cleanList (.cons (.elem "html" aO cO) .nil)) "old").2 ++
        (remove_undiffable_content (cleanList (.cons (.elem "html" aN cN) .nil)) "new").2)
      hd1shape hd3shape haN
    have hmid : html_diff_render_mid hd (.cons (.elem "html" aO cO) .nil)
        (.cons (.elem "html" aN cN) .nil) =
        .ok (mid, (remove_undiffable_content
            (cleanList (.cons (.elem "html" aO cO) .nil)) "old").2 ++
          (remove_undiffable_content
            (cleanList (.cons (.elem "html" aN cN) .nil)) "new").2) := by
      rw [html_diff_render_mid_eq hd (.cons (.elem "html" aO cO) .nil)
        (.cons (.elem "html" aN cN) .nil)
        (fmnStateToRegions (fmnFold ⟨[], none, [], none, []⟩
          (shieldList "old" (cleanList cO) 0).1))
        (fmnStateToRegions (fmnFold ⟨[], none, [], none, []⟩
          (shieldList "new" (cleanList cN) 0).1))
        d1v d3v rfl rfl h1 h3, hform]
      exact hmideq
    have hrp : reparse (pretty mid) = mid := by
      unfold midRoundTrips at hrt
      rw [hmid] at hrt
      simpa using hrt
    refine ⟨mid, ?_, hcount, hstyle⟩
    unfold html_diff_render
    rw [hmid]
    simp only [pybind_ok]
    rw [hrp, show add_undiffable_content mid
        ((remove_undiffable_content
            (cleanList (.cons (.elem "html" aO cO) .nil)) "old").2 ++
          (remove_undiffable_content
            (cleanList (.cons (.elem "html" aN cN) .nil)) "new").2) = .ok mid from
      unshieldList_noop _ mid hnowm]
    simp only [pybind_ok]
    rfl
  rcases hsh1 with h1 | ⟨aH, sH, h1, hwmH⟩
  · rcases hsh3 with h3 | ⟨aB, sB, h3, hwmB⟩
    · exact main _ _ h1 h3 (Or.inl rfl) (Or.inl rfl)
    · exact main _ _ h1 h3 (Or.inl rfl) (Or.inr ⟨aB, sB, rfl, hwmB⟩)
  · rcases hsh3 with h3 | ⟨aB, sB, h3, hwmB⟩
    · exact main _ _ h1 h3 (Or.inr ⟨aH, sH, rfl, hwmH⟩) (Or.inl rfl)
    · exact main _ _ h1 h3 (Or.inr ⟨aH, sH, rfl, hwmH⟩) (Or.inr ⟨aB, sB, rfl, hwmB⟩)

/-- Closed instance of C6 as amended at concrete documents with an html root,
a concrete structural-diff stub, the model serializer, and a reparse function
that returns the assembled tree (satisfying the round-trip contract at this
input). -/
theorem C6_render_single_head_with_style_witness :
    (html_diff_render (fun _ b => b) renderChildren
      (fun _ => match html_diff_render_mid (fun _ b => b)
        (.cons (.elem "html" [] (.ofList [.elem "head" [] (.ofList [.text "t"]),
          .elem "body" [] (.ofList [.text "x"])])) .nil)
        (.cons (.elem "html" [] (.ofList [.elem "head" [] (.ofList [.text "t"]),
          .elem "body" [] (.ofList [.text "y"])])) .nil) with
        | .ok m => m.1
        | .error _ => .nil)
      (.cons (.elem "html" [] (.ofList [.elem "head" [] (.ofList [.text "t"]),
        .elem "body" [] (.ofList [.text "x"])])) .nil)
      (.cons (.elem "html" [] (.ofList [.elem "head" [] (.ofList [.text "t"]),
        .elem "body" [] (.ofList [.text "y"])])) .nil)).isOk = true := by
  obtain ⟨doc, h1, h2, h3⟩ := C6_render_single_head_with_style (fun _ b => b)
    renderChildren
    (fun _ => match html_diff_render_mid (fun _ b => b)
      (.cons (.elem "html" [] (.ofList [.elem "head" [] (.ofList [.text "t"]),
        .elem "body" [] (.ofList [.text "x"])])) .nil)
      (.cons (.elem "html" [] (.ofList [.elem "head" [] (.ofList [.text "t"]),
        .elem "body" [] (.ofList [.text "y"])])) .nil) with
      | .ok m => m.1
      | .error _ => .nil)
    [] []
    (.ofList [.elem "head" [] (.ofList [.text "t"]),
      .elem "body" [] (.ofList [.text "x"])])
    (.ofList [.elem "head" [] (.ofList [.text "t"]),
      .elem "body" [] (.ofList [.text "y"])])
    (by decide) (by decide)
  rw [h1]
  rfl


example :
    (html_diff_render_mid (fun _ b => b)
      (.ofList [.elem "html" [] (.ofList [.elem "head" [] (.ofList [.text "h"]),
        .elem "body" [] (.ofList [.text "old body"])])])
      (.ofList [.elem "html" [] (.ofList [.elem "head" [] (.ofList [.text "h"]),
        .elem "body" [] (.ofList [.text "new body"])])])).isOk = true := by decide